import Mathlib

/-!
Shallow embedding of the core of the `ulmer-a/kernel` repository, and proofs
about it.

* `src/allocators/src/lib.rs` — the buddy allocator (`BuddyAllocator<ORDER>`):
  free lists are `ORDER` ordered sets (`BTreeSet<usize>`), modelled as a
  function from slot index to `Finset ℕ`; `usize` is 32 bits on the target
  (`x86`, IA-32), so two's-complement tricks in the source are modelled with
  an explicit width of 32.
* `src/multiboot/src/lib.rs` and `src/src/boot/multiboot.rs` — the multiboot
  header builder and the boot-info flag guards.
* `src/types/src/mem.rs` / `src/src/mem/physical.rs` — the `MemoryRegion`
  crop operations.

Rust recursion and loops are modelled with explicit fuel so that every
definition evaluates by kernel reduction; the fuel chosen at each wrapper is
an upper bound on the number of iterations the source can perform.
-/

namespace KernelSpec

/-! ## Buddy allocator state (src/allocators/src/lib.rs) -/

/-- State of `BuddyAllocator<ORDER>`: the `ORDER` free lists (slot `k` holds
start addresses of free blocks of size `2^k`; slots `≥ ORDER` are unused and
stay empty), and the two statistics fields. -/
structure Buddy where
  free_lists : ℕ → Finset ℕ
  total : ℕ
  allocated : ℕ

/-- `BuddyAllocator::new()` — empty free lists, zero statistics. -/
def Buddy.empty : Buddy := ⟨fun _ => ∅, 0, 0⟩

/-- `BTreeSet::iter().next()` — the least element of the set, if any. -/
def setMin (s : Finset ℕ) : Option ℕ :=
  if h : s.Nonempty then some (s.min' h) else none

/-- Fuel-driven core of `usize::trailing_zeros` (the fuel is an upper bound
on the number of halvings; `n` itself always suffices). -/
def trailingZerosAux : ℕ → ℕ → ℕ
  | 0, _ => 0
  | fuel + 1, n => if n % 2 = 1 then 0 else trailingZerosAux fuel (n / 2) + 1

/-- `usize::trailing_zeros` on the 32-bit target: 32 for 0, otherwise the
2-adic valuation. -/
def trailingZeros (n : ℕ) : ℕ :=
  if n = 0 then 32 else trailingZerosAux n n

/-- Fuel-driven core of `usize::next_power_of_two`: keep doubling `power`
until it reaches `n`. -/
def nextPow2Go (n : ℕ) : ℕ → ℕ → ℕ
  | 0, power => power
  | fuel + 1, power => if power < n then nextPow2Go n fuel (power * 2) else power

/-- `usize::next_power_of_two`: the least power of two `≥ n` (1 for 0). -/
def nextPow2 (n : ℕ) : ℕ := nextPow2Go n n 1

/-- Fuel-driven core of `usize::ilog2` (floor base-2 logarithm). -/
def ilog2Aux : ℕ → ℕ → ℕ
  | 0, _ => 0
  | fuel + 1, n => if 2 ≤ n then ilog2Aux fuel (n / 2) + 1 else 0

/-- `usize::ilog2` (the source only calls it on positive values). -/
def ilog2 (n : ℕ) : ℕ := ilog2Aux n n

/-- One recursion step of `BuddyAllocator::add_range` (release semantics:
the out-of-range end is silently clipped to `2^ORDER`).  `x & (!x + 1)` on a
32-bit `usize` is `x &&& (2^32 - x)`, and `usize::MAX` is `2^32 - 1`.  The
fuel bounds the recursion depth: every insertion advances `range.start` by
at least one. -/
def addRangeAux (ORDER : ℕ) : ℕ → Buddy → ℕ → ℕ → Buddy
  | 0, st, _, _ => st
  | fuel + 1, st, s, e =>
    if 2 ^ ORDER < e then addRangeAux ORDER fuel st s (min e (2 ^ ORDER))
    else if s < e then
      let insertion_alignment := if 0 < s then s &&& (2 ^ 32 - s) else 2 ^ 32 - 1
      let max_insertion_size := min (2 ^ ilog2 (e - s)) (2 ^ (ORDER - 1))
      let actual_insertion_size := min insertion_alignment max_insertion_size
      let slot := ilog2 actual_insertion_size
      addRangeAux ORDER fuel
        { st with
          total := st.total + actual_insertion_size,
          free_lists := Function.update st.free_lists slot
            (insert s (st.free_lists slot)) }
        (s + actual_insertion_size) e
    else st

/-- `BuddyAllocator::add_range(range)` with `range = s..e`. -/
def Buddy.add_range (ORDER : ℕ) (st : Buddy) (s e : ℕ) : Buddy :=
  addRangeAux ORDER (e - s + 2) st s e

/-- The scan `for i in class..ORDER` looking for the first non-empty free
list; the fuel is the number of slots left to inspect. -/
def findNonempty (fl : ℕ → Finset ℕ) : ℕ → ℕ → Option ℕ
  | _, 0 => none
  | k, fuel + 1 => if fl k ≠ ∅ then some k else findNonempty fl (k + 1) fuel

/-- The splitting loop `for j in (class + 1..i + 1).rev()` of
`alloc_power_of_two`, run for `n` iterations starting at level `j`.  On the
(unreachable) empty-slot path the source returns `None` from the whole
function with the mutations made so far, hence the `Bool` component. -/
def splitLoop (fl : ℕ → Finset ℕ) (j : ℕ) : ℕ → ((ℕ → Finset ℕ) × Bool)
  | 0 => (fl, true)
  | n + 1 =>
    match setMin (fl j) with
    | none => (fl, false)
    | some block =>
      let fl1 := Function.update fl (j - 1)
        (insert block (insert (block + 2 ^ (j - 1)) (fl (j - 1))))
      let fl2 := Function.update fl1 j ((fl1 j).erase block)
      splitLoop fl2 (j - 1) n

/-- `BuddyAllocator::alloc_power_of_two(size)`, with
`class = size.trailing_zeros()` written out inline. -/
def allocPow2 (ORDER : ℕ) (st : Buddy) (size : ℕ) : Option ℕ × Buddy :=
  match findNonempty st.free_lists (trailingZeros size)
      (ORDER - trailingZeros size) with
  | none => (none, st)
  | some i =>
    match splitLoop st.free_lists i (i - trailingZeros size) with
    | (fl, false) => (none, { st with free_lists := fl })
    | (fl, true) =>
      match setMin (fl (trailingZeros size)) with
      | none => (none, { st with free_lists := fl })
      | some result =>
        (some result,
          { st with
            free_lists := Function.update fl (trailingZeros size)
              ((fl (trailingZeros size)).erase result),
            allocated := st.allocated + size })

/-- Description of the free lists produced by `n` iterations of the
splitting loop started at level `j` on a block `b`: the block is removed
from slot `j`, the slots strictly between the stopping level and `j` each
receive the upper half split off at that level, and the stopping slot
`j - n` receives both halves (the caller then pops the lower one). -/
def splitResult (fl : ℕ → Finset ℕ) (j b n : ℕ) : ℕ → Finset ℕ := fun k =>
  if n = 0 then fl k
  else if k = j then (fl j).erase b
  else if k = j - n then insert b (insert (b + 2 ^ k) (fl k))
  else if j - n < k ∧ k < j then ({b + 2 ^ k} : Finset ℕ)
  else fl k

/-- Description of the free lists after a successful
`alloc_power_of_two` with class `cls` that found its block `b` in slot
`i`: slot `i` loses `b`, every slot in `[cls, i)` holds exactly the upper
half split off at that level, and the rest is untouched. -/
def allocFree (fl : ℕ → Finset ℕ) (cls i b : ℕ) : ℕ → Finset ℕ := fun k =>
  if k = i then (fl i).erase b
  else if cls ≤ k ∧ k < i then ({b + 2 ^ k} : Finset ℕ)
  else fl k

/-- `BuddyAllocator::alloc(count)`. -/
def Buddy.alloc (ORDER : ℕ) (st : Buddy) (count : ℕ) : Option ℕ × Buddy :=
  allocPow2 ORDER st (nextPow2 count)

/-- `BuddyAllocator::alloc_aligned(layout)` with `layout = {size, align}`. -/
def Buddy.alloc_aligned (ORDER : ℕ) (st : Buddy) (size align : ℕ) :
    Option ℕ × Buddy :=
  allocPow2 ORDER st (max (nextPow2 size) align)

/-- The coalescing loop of `dealloc_power_of_two`; the fuel equals
`ORDER - current_class`, so fuel 0 is exactly the `current_class < ORDER`
exit of the `while`. -/
def mergeLoopAux (ORDER : ℕ) : (ℕ → Finset ℕ) → ℕ → ℕ → ℕ → (ℕ → Finset ℕ)
  | fl, _, _, 0 => fl
  | fl, p, k, fuel + 1 =>
    if k < ORDER then
      let buddy := p ^^^ 2 ^ k
      if buddy ∈ fl k then
        mergeLoopAux ORDER (Function.update fl k ((fl k).erase buddy))
          (min p buddy) (k + 1) fuel
      else Function.update fl k (insert p (fl k))
    else fl

/-- The coalescing loop of `dealloc_power_of_two` starting at class `k`. -/
def mergeLoop (ORDER : ℕ) (fl : ℕ → Finset ℕ) (p k : ℕ) : ℕ → Finset ℕ :=
  mergeLoopAux ORDER fl p k (ORDER - k)

/-- `BuddyAllocator::dealloc_power_of_two(start_frame, size)`. -/
def deallocPow2 (ORDER : ℕ) (st : Buddy) (start_frame size : ℕ) : Buddy :=
  { st with
    free_lists := mergeLoop ORDER st.free_lists start_frame (trailingZeros size),
    allocated := st.allocated - size }

/-- `BuddyAllocator::dealloc(start_frame, count)`. -/
def Buddy.dealloc (ORDER : ℕ) (st : Buddy) (start_frame count : ℕ) : Buddy :=
  deallocPow2 ORDER st start_frame (nextPow2 count)

/-- `BuddyAllocator::dealloc_aligned(start_frame, layout)`. -/
def Buddy.dealloc_aligned (ORDER : ℕ) (st : Buddy) (start_frame size align : ℕ) :
    Buddy :=
  deallocPow2 ORDER st start_frame (max (nextPow2 size) align)

/-- Total bytes recorded in the free lists: the sum of `2^k` over all
entries of slot `k`, over all `k < ORDER`. -/
def sumFreeF (ORDER : ℕ) (fl : ℕ → Finset ℕ) : ℕ :=
  ∑ k ∈ Finset.range ORDER, 2 ^ k * (fl k).card

/-- The coalescing invariant of the spec: no slot `k` holds both an address
and its buddy `a ^^^ 2^k`. -/
def PairFreeF (ORDER : ℕ) (fl : ℕ → Finset ℕ) : Prop :=
  ∀ k, k < ORDER → ∀ a ∈ fl k, a ^^^ 2 ^ k ∉ fl k

/-- The coalescing invariant, on an allocator state. -/
def BuddyPairFree (ORDER : ℕ) (st : Buddy) : Prop :=
  PairFreeF ORDER st.free_lists

instance PairFreeF.instDecidable (ORDER : ℕ) (fl : ℕ → Finset ℕ) :
    Decidable (PairFreeF ORDER fl) :=
  inferInstanceAs (Decidable (∀ k, k < ORDER → ∀ a ∈ fl k, a ^^^ 2 ^ k ∉ fl k))

instance BuddyPairFree.instDecidable (ORDER : ℕ) (st : Buddy) :
    Decidable (BuddyPairFree ORDER st) :=
  inferInstanceAs (Decidable (PairFreeF ORDER st.free_lists))

/-- Ghost record of a successful allocation: the returned address paired
with the block size handed to `alloc_power_of_two`. -/
def ghost : Option ℕ → ℕ → Multiset (ℕ × ℕ)
  | none, _ => 0
  | some a, size => {(a, size)}

/-- States reachable from the empty allocator by the public operations,
together with the multiset of outstanding allocations.  Deallocations are
restricted (as in the claims) to the address and rounded size of a matching
prior allocation; `Layout::align` is always a power of two in Rust, hence
the `2 ^ m` argument of the aligned operations. -/
inductive Reachable (ORDER : ℕ) : Buddy → Multiset (ℕ × ℕ) → Prop where
  | empty : Reachable ORDER Buddy.empty 0
  | add_range {st g} (s e : ℕ) (h : Reachable ORDER st g) :
      Reachable ORDER (Buddy.add_range ORDER st s e) g
  | alloc {st g} (count : ℕ) (h : Reachable ORDER st g) :
      Reachable ORDER (Buddy.alloc ORDER st count).2
        (g + ghost (Buddy.alloc ORDER st count).1 (nextPow2 count))
  | alloc_aligned {st g} (size m : ℕ) (h : Reachable ORDER st g) :
      Reachable ORDER (Buddy.alloc_aligned ORDER st size (2 ^ m)).2
        (g + ghost (Buddy.alloc_aligned ORDER st size (2 ^ m)).1
          (max (nextPow2 size) (2 ^ m)))
  | dealloc {st g} (frame count : ℕ) (h : Reachable ORDER st g)
      (hm : (frame, nextPow2 count) ∈ g) :
      Reachable ORDER (Buddy.dealloc ORDER st frame count)
        (g.erase (frame, nextPow2 count))
  | dealloc_aligned {st g} (frame size m : ℕ) (h : Reachable ORDER st g)
      (hm : (frame, max (nextPow2 size) (2 ^ m)) ∈ g) :
      Reachable ORDER (Buddy.dealloc_aligned ORDER st frame size (2 ^ m))
        (g.erase (frame, max (nextPow2 size) (2 ^ m)))

/-! ## Multiboot boot-info flag guards (src/multiboot/src/lib.rs and
src/src/boot/multiboot.rs) -/

/-- `BitfieldExt::is_nth_bit_set` from the `multiboot` crate, verbatim:
`*self & (bit << 1) as u32 != 0` (the cast keeps the low 32 bits). -/
def is_nth_bit_set (w bit : ℕ) : Bool :=
  w &&& ((bit <<< 1) % 2 ^ 32) != 0

/-- The guard of `BootInfo::memory_map` in the `multiboot` crate: bit check
via `is_nth_bit_set(6)` and a non-null `mmap` pointer (null = 0). -/
def memory_map_is_present (flags mmap : ℕ) : Bool :=
  is_nth_bit_set flags 6 && mmap != 0

/-- The guard of `BootInfo::memory_map` in `src/src/boot/multiboot.rs`:
`MEMORY_MAP_PRESENT = 1 << 6` and a non-null `mmap` pointer. -/
def memory_map_is_present_boot (flags mmap : ℕ) : Bool :=
  flags &&& (1 <<< 6) != 0 && mmap != 0

/-! ## Multiboot header builder (src/multiboot/src/header.rs) -/

/-- Optional load-address request part of the multiboot header. -/
structure LoadAddressRequest where
  header_addr : ℕ
  load_addr : ℕ
  load_end_addr : ℕ
  bss_end_addr : ℕ
  entry_addr : ℕ
deriving DecidableEq

/-- Optional graphics request part of the multiboot header. -/
structure GraphicsRequest where
  mode : ℕ
  width : ℕ
  height : ℕ
  depth : ℕ
deriving DecidableEq

/-- `GraphicsRequest::default_const()`. -/
def GraphicsRequest.default_const : GraphicsRequest := ⟨1, 0, 0, 0⟩

/-- `GraphicsRequest::with_framebuffer()`. -/
def GraphicsRequest.with_framebuffer (g : GraphicsRequest) : GraphicsRequest :=
  { g with mode := 0 }

/-- `GraphicsRequest::with_text_mode()`. -/
def GraphicsRequest.with_text_mode (g : GraphicsRequest) : GraphicsRequest :=
  { g with mode := 1 }

/-- The 48-byte multiboot `Header` record (all fields 32-bit words). -/
structure Header where
  magic : ℕ
  flags : ℕ
  checksum : ℕ
  addresses : LoadAddressRequest
  graphics : GraphicsRequest
deriving DecidableEq

/-- `HeaderBuilder`. -/
structure HeaderBuilder where
  flags : ℕ
  addresses : Option LoadAddressRequest
  graphics : Option GraphicsRequest

/-- `HeaderBuilder::new()`. -/
def HeaderBuilder.new : HeaderBuilder := ⟨0, none, none⟩

/-- `HeaderBuilder::request_aligned_modules()` — sets flag bit 0. -/
def HeaderBuilder.request_aligned_modules (b : HeaderBuilder) : HeaderBuilder :=
  { b with flags := b.flags ||| (1 <<< 0) }

/-- `HeaderBuilder::request_memory_map()` — sets flag bit 1. -/
def HeaderBuilder.request_memory_map (b : HeaderBuilder) : HeaderBuilder :=
  { b with flags := b.flags ||| (1 <<< 1) }

/-- `HeaderBuilder::request_graphics(graphics)` — sets flag bit 2. -/
def HeaderBuilder.request_graphics (b : HeaderBuilder) (g : GraphicsRequest) :
    HeaderBuilder :=
  { b with flags := b.flags ||| (1 <<< 2), graphics := some g }

/-- `HeaderBuilder::request_default_framebuffer()`. -/
def HeaderBuilder.request_default_framebuffer (b : HeaderBuilder) : HeaderBuilder :=
  b.request_graphics GraphicsRequest.default_const.with_framebuffer

/-- `HeaderBuilder::request_default_textmode()`. -/
def HeaderBuilder.request_default_textmode (b : HeaderBuilder) : HeaderBuilder :=
  b.request_graphics GraphicsRequest.default_const.with_text_mode

/-- `HeaderBuilder::build()`: `checksum = !HEADER_MAGIC.wrapping_add(flags) + 1`
on `u32`, i.e. `(2^32 - 1 - ((magic + flags) % 2^32)) + 1` over ℕ. -/
def HeaderBuilder.build (b : HeaderBuilder) : Header :=
  { magic := 0x1badb002,
    flags := b.flags,
    checksum := (2 ^ 32 - 1 - ((0x1badb002 + b.flags) % 2 ^ 32)) + 1,
    addresses := match b.addresses with
      | some addresses => addresses
      | none => ⟨0, 0, 0, 0, 0⟩,
    graphics := match b.graphics with
      | some graphics => graphics
      | none => GraphicsRequest.default_const }

/-- One `request_*` call on the builder. -/
inductive BuilderOp where
  | aligned_modules
  | memory_map
  | graphics (g : GraphicsRequest)
  | default_framebuffer
  | default_textmode

/-- Apply one builder call. -/
def applyOp (b : HeaderBuilder) : BuilderOp → HeaderBuilder
  | .aligned_modules => b.request_aligned_modules
  | .memory_map => b.request_memory_map
  | .graphics g => b.request_graphics g
  | .default_framebuffer => b.request_default_framebuffer
  | .default_textmode => b.request_default_textmode

/-- Apply a sequence of builder calls in order. -/
def applyOps (b : HeaderBuilder) (ops : List BuilderOp) : HeaderBuilder :=
  ops.foldl applyOp b

/-! ## Memory regions (src/types/src/mem.rs; identical code in
src/src/mem/physical.rs as MemoryChunk) -/

/-- `MemoryRegionType` (the source field is named `class`, a Lean keyword,
so the field below is `kind`). -/
inductive MemoryRegionType where
  | Available
  | Unusable
  | Reclaimable
deriving DecidableEq

/-- `MemoryRegion { base_addr, length, class }` over `u64` (the spec
guarantees `base_addr + length` does not overflow, so ℕ is exact). -/
structure MemoryRegion where
  base_addr : ℕ
  length : ℕ
  kind : MemoryRegionType
deriving DecidableEq

/-- `MemoryRegion::end_addr()`. -/
def MemoryRegion.end_addr (r : MemoryRegion) : ℕ := r.base_addr + r.length

/-- `MemoryRegion::crop_start(min_addr)`, verbatim from the source: the
result keeps `length = end_addr - max(base_addr, min_addr)` but sets
`base_addr = min_addr` unconditionally. -/
def MemoryRegion.crop_start (r : MemoryRegion) (min_addr : ℕ) :
    Option MemoryRegion :=
  if min_addr < r.end_addr then
    some { r with
      base_addr := min_addr,
      length := r.end_addr - max r.base_addr min_addr }
  else none

/-- `MemoryRegion::crop_end(max_addr)`. -/
def MemoryRegion.crop_end (r : MemoryRegion) (max_addr : ℕ) :
    Option MemoryRegion :=
  if r.base_addr < max_addr then
    some { r with
      length :=
        if max_addr < r.end_addr then min r.end_addr max_addr - r.base_addr
        else r.length }
  else none

/-- `MemoryRegion::crop(min_addr, max_addr)`. -/
def MemoryRegion.crop (r : MemoryRegion) (min_addr max_addr : ℕ) :
    Option MemoryRegion :=
  (r.crop_start min_addr).bind fun chunk => chunk.crop_end max_addr

/-! ## Concrete states used by counterexamples -/

/-- `BuddyAllocator::<16>` after `add_range(0..1025)` (spec boundary
scenario). -/
def c3State : Buddy := Buddy.add_range 16 Buddy.empty 0 1025

/-- First `alloc(512)` of the scenario. -/
def c3Alloc1 : Option ℕ × Buddy := Buddy.alloc 16 c3State 512

/-- Second `alloc(512)`. -/
def c3Alloc2 : Option ℕ × Buddy := Buddy.alloc 16 c3Alloc1.2 512

/-- Third allocation, `alloc(1)`. -/
def c3Alloc3 : Option ℕ × Buddy := Buddy.alloc 16 c3Alloc2.2 1

/-- Fourth allocation, `alloc(1)`. -/
def c3Alloc4 : Option ℕ × Buddy := Buddy.alloc 16 c3Alloc3.2 1

/-- `BuddyAllocator::<4>` after `add_range(0..16)`: slot 3 holds the buddy
pair `{0, 8}`. -/
def c1State : Buddy := Buddy.add_range 4 Buddy.empty 0 16

/-- `BuddyAllocator::<5>` after `add_range(0..32)` then `alloc(16)`. -/
def c4State : Buddy :=
  (Buddy.alloc 5 (Buddy.add_range 5 Buddy.empty 0 32) 16).2

/-- `BuddyAllocator::<1>` after `add_range(0..2)`, `alloc(1)`,
`dealloc(0, 1)`: the top-class merge drops the coalesced block. -/
def c5State : Buddy :=
  Buddy.dealloc 1 (Buddy.alloc 1 (Buddy.add_range 1 Buddy.empty 0 2) 1).2 0 1

/-- `BuddyAllocator::<7>` with slot 0 = {100} and slot 4 = {0}. -/
def c10State : Buddy :=
  Buddy.add_range 7 (Buddy.add_range 7 Buddy.empty 0 16) 100 101

/-- `BuddyAllocator::<2>` after `add_range(0..1)`: slot 0 = {0}. -/
def c10SmallState : Buddy := Buddy.add_range 2 Buddy.empty 0 1

/-! ## Helper lemmas: `setMin` -/

theorem setMin_of_nonempty {s : Finset ℕ} (h : s.Nonempty) :
    setMin s = some (s.min' h) := by
  simp [setMin, h]

theorem setMin_mem {s : Finset ℕ} {b : ℕ} (h : setMin s = some b) : b ∈ s := by
  unfold setMin at h
  split at h
  · next hne => cases h; exact s.min'_mem hne
  · cases h

theorem setMin_le {s : Finset ℕ} {b : ℕ} (h : setMin s = some b) :
    ∀ x ∈ s, b ≤ x := by
  unfold setMin at h
  split at h
  · next hne => cases h; intro x hx; exact s.min'_le x hx
  · cases h

theorem setMin_eq_some_of {s : Finset ℕ} {b : ℕ} (hb : b ∈ s)
    (hle : ∀ x ∈ s, b ≤ x) : setMin s = some b := by
  have hne : s.Nonempty := ⟨b, hb⟩
  rw [setMin_of_nonempty hne]
  exact congrArg some (le_antisymm (s.min'_le b hb) (hle _ (s.min'_mem hne)))

theorem setMin_pair {b c : ℕ} (h : b < c) {s : Finset ℕ} (hs : s = ∅) :
    setMin (insert b (insert c s)) = some b := by
  subst hs
  refine setMin_eq_some_of (by simp) ?_
  intro x hx
  simp only [Finset.mem_insert, Finset.mem_singleton] at hx
  rcases hx with rfl | hx
  · exact le_rfl
  · simp only [Finset.mem_insert, Finset.not_mem_empty, or_false] at hx
    omega

/-! ## Helper lemmas: the `usize` primitives -/

theorem trailingZerosAux_two_pow (m : ℕ) :
    ∀ fuel, 2 ^ m ≤ fuel → trailingZerosAux fuel (2 ^ m) = m := by
  induction m with
  | zero =>
    intro fuel hf
    cases fuel with
    | zero => simp at hf
    | succ fuel => simp [trailingZerosAux]
  | succ m ih =>
    intro fuel hf
    have h1 : 1 ≤ 2 ^ m := Nat.one_le_two_pow
    have h2 : 2 ^ (m + 1) = 2 * 2 ^ m := by ring
    cases fuel with
    | zero => omega
    | succ fuel =>
      have heven : (2 ^ (m + 1)) % 2 = 0 := by omega
      have hdiv : 2 ^ (m + 1) / 2 = 2 ^ m := by omega
      simp only [trailingZerosAux, heven]
      rw [hdiv, ih fuel (by omega)]
      simp

theorem trailingZeros_two_pow (m : ℕ) : trailingZeros (2 ^ m) = m := by
  have h : (2:ℕ) ^ m ≠ 0 := by positivity
  unfold trailingZeros
  rw [if_neg h]
  exact trailingZerosAux_two_pow m _ le_rfl

theorem nextPow2Go_pow (n : ℕ) :
    ∀ fuel j, ∃ m, nextPow2Go n fuel (2 ^ j) = 2 ^ m := by
  intro fuel
  induction fuel with
  | zero => intro j; exact ⟨j, rfl⟩
  | succ fuel ih =>
    intro j
    simp only [nextPow2Go]
    split
    · have : 2 ^ j * 2 = 2 ^ (j + 1) := by ring
      rw [this]; exact ih (j + 1)
    · exact ⟨j, rfl⟩

theorem nextPow2_isPow (n : ℕ) : ∃ m, nextPow2 n = 2 ^ m := by
  have := nextPow2Go_pow n n 0
  simpa [nextPow2] using this

theorem pow_trailingZeros_nextPow2 (n : ℕ) :
    2 ^ trailingZeros (nextPow2 n) = nextPow2 n := by
  obtain ⟨m, hm⟩ := nextPow2_isPow n
  rw [hm, trailingZeros_two_pow]

theorem max_two_pow (a b : ℕ) : max (2 ^ a) (2 ^ b) = 2 ^ max a b := by
  rcases le_total a b with h | h
  · rw [max_eq_right (Nat.pow_le_pow_right (by omega) h), max_eq_right h]
  · rw [max_eq_left (Nat.pow_le_pow_right (by omega) h), max_eq_left h]

theorem pow_trailingZeros_alignedSize (n m : ℕ) :
    2 ^ trailingZeros (max (nextPow2 n) (2 ^ m)) = max (nextPow2 n) (2 ^ m) := by
  obtain ⟨k, hk⟩ := nextPow2_isPow n
  rw [hk, max_two_pow, trailingZeros_two_pow]

theorem ilog2Aux_le :
    ∀ fuel n, 0 < n → n ≤ fuel → 2 ^ ilog2Aux fuel n ≤ n := by
  intro fuel
  induction fuel with
  | zero => intro n h1 h2; omega
  | succ fuel ih =>
    intro n h1 h2
    simp only [ilog2Aux]
    split
    · next h2n =>
      have := ih (n / 2) (by omega) (by omega)
      calc 2 ^ (ilog2Aux fuel (n / 2) + 1) = 2 ^ ilog2Aux fuel (n / 2) * 2 := by ring
        _ ≤ (n / 2) * 2 := by omega
        _ ≤ n := by omega
    · simpa using h1

theorem ilog2_le {n : ℕ} (h : 0 < n) : 2 ^ ilog2 n ≤ n :=
  ilog2Aux_le n n h le_rfl

/-! ## Helper lemmas: bitwise facts for the alignment computation -/

theorem land_two_mul (a b : ℕ) : (2 * a) &&& (2 * b) = 2 * (a &&& b) := by
  apply Nat.eq_of_testBit_eq
  intro i
  cases i with
  | zero =>
    simp [Nat.testBit_land, Nat.testBit_zero, Nat.mul_mod_right]
  | succ i =>
    rw [Nat.testBit_land, Nat.testBit_succ, Nat.testBit_succ, Nat.testBit_succ,
      Nat.mul_div_cancel_left a (by omega : 0 < 2),
      Nat.mul_div_cancel_left b (by omega : 0 < 2),
      Nat.mul_div_cancel_left (a &&& b) (by omega : 0 < 2), Nat.testBit_land]

theorem land_pos_of_odd {a b : ℕ} (ha : a % 2 = 1) (hb : b % 2 = 1) :
    0 < a &&& b := by
  rcases Nat.eq_zero_or_pos (a &&& b) with h | h
  · exfalso
    have h0 : (a &&& b).testBit 0 = false := by rw [h]; exact Nat.zero_testBit 0
    rw [Nat.testBit_land, Nat.testBit_zero, Nat.testBit_zero, ha, hb] at h0
    simp at h0
  · exact h

theorem land_sub_pos : ∀ (W s : ℕ), 0 < s → s < 2 ^ W → 0 < s &&& (2 ^ W - s) := by
  intro W
  induction W with
  | zero => intro s h1 h2; omega
  | succ W ih =>
    intro s h1 h2
    have hpow : 2 ^ (W + 1) = 2 * 2 ^ W := by ring
    by_cases hpar : s % 2 = 1
    · exact land_pos_of_odd hpar (by omega)
    · obtain ⟨t, rfl⟩ : ∃ t, s = 2 * t := ⟨s / 2, by omega⟩
      have hsub : 2 ^ (W + 1) - 2 * t = 2 * (2 ^ W - t) := by omega
      rw [hsub, land_two_mul]
      have := ih t (by omega) (by omega)
      omega

/-! ## Helper lemmas: the first-nonempty-slot scan -/

theorem findNonempty_some (fl : ℕ → Finset ℕ) :
    ∀ fuel k i, findNonempty fl k fuel = some i →
      k ≤ i ∧ i < k + fuel ∧ fl i ≠ ∅ ∧ ∀ m, k ≤ m → m < i → fl m = ∅ := by
  intro fuel
  induction fuel with
  | zero => intro k i h; simp [findNonempty] at h
  | succ fuel ih =>
    intro k i h
    unfold findNonempty at h
    by_cases hk : fl k ≠ ∅
    · rw [if_pos hk] at h
      cases h
      exact ⟨le_rfl, by omega, hk, fun m h1 h2 => by omega⟩
    · rw [if_neg hk] at h
      obtain ⟨h1, h2, h3, h4⟩ := ih (k + 1) i h
      refine ⟨by omega, by omega, h3, fun m hm1 hm2 => ?_⟩
      rcases Nat.eq_or_lt_of_le hm1 with rfl | hm1
      · exact not_not.mp hk
      · exact h4 m (by omega) hm2

theorem findNonempty_none_of (fl : ℕ → Finset ℕ) :
    ∀ fuel k, (∀ m, k ≤ m → m < k + fuel → fl m = ∅) →
      findNonempty fl k fuel = none := by
  intro fuel
  induction fuel with
  | zero => intro k _; rfl
  | succ fuel ih =>
    intro k h
    unfold findNonempty
    rw [if_neg (by simpa using h k le_rfl (by omega))]
    exact ih (k + 1) fun m h1 h2 => h m (by omega) (by omega)

/-! ## Helper lemmas: the free-byte sum -/

theorem sumFreeF_update_lt {ORDER k : ℕ} (fl : ℕ → Finset ℕ) (hk : k < ORDER)
    (s : Finset ℕ) :
    sumFreeF ORDER (Function.update fl k s) + 2 ^ k * (fl k).card =
      sumFreeF ORDER fl + 2 ^ k * s.card := by
  have hsub : {k} ⊆ Finset.range ORDER := by
    simpa using hk
  have e1 : sumFreeF ORDER (Function.update fl k s) =
      (∑ x ∈ Finset.range ORDER \ {k}, 2 ^ x * (fl x).card) + 2 ^ k * s.card := by
    unfold sumFreeF
    rw [← Finset.sum_sdiff hsub]
    congr 1
    · refine Finset.sum_congr rfl fun x hx => ?_
      have hxk : x ≠ k := by
        have := Finset.mem_sdiff.mp hx
        simpa using this.2
      rw [Function.update_noteq hxk]
    · rw [Finset.sum_singleton, Function.update_same]
  have e2 : sumFreeF ORDER fl =
      (∑ x ∈ Finset.range ORDER \ {k}, 2 ^ x * (fl x).card) + 2 ^ k * (fl k).card := by
    unfold sumFreeF
    rw [← Finset.sum_sdiff hsub, Finset.sum_singleton]
  omega

theorem sumFreeF_update_ge {ORDER k : ℕ} (fl : ℕ → Finset ℕ) (hk : ORDER ≤ k)
    (s : Finset ℕ) :
    sumFreeF ORDER (Function.update fl k s) = sumFreeF ORDER fl := by
  refine Finset.sum_congr rfl fun x hx => ?_
  have hxk : x ≠ k := by
    have := Finset.mem_range.mp hx
    omega
  rw [Function.update_noteq hxk]

theorem sum_two_pow_Ico (a b : ℕ) (h : a ≤ b) :
    (∑ k ∈ Finset.Ico a b, 2 ^ k) + 2 ^ a = 2 ^ b := by
  induction b, h using Nat.le_induction with
  | base => simp
  | succ n hn ih =>
    rw [Finset.sum_Ico_succ_top hn]
    have : (2:ℕ) ^ (n + 1) = 2 ^ n + 2 ^ n := by ring
    omega

/-! ## Helper lemmas: the splitting loop of `alloc_power_of_two` -/

theorem splitResult_zero (fl : ℕ → Finset ℕ) (j b : ℕ) :
    splitResult fl j b 0 = fl := by
  funext k
  simp [splitResult]

theorem splitResult_at_top {fl : ℕ → Finset ℕ} {j b n : ℕ} (hn : n ≠ 0) :
    splitResult fl j b n j = (fl j).erase b := by
  unfold splitResult
  rw [if_neg hn, if_pos rfl]

theorem splitResult_at_stop {fl : ℕ → Finset ℕ} {j b n k : ℕ} (hn : n ≠ 0)
    (hk : k = j - n) (hkj : k ≠ j) :
    splitResult fl j b n k = insert b (insert (b + 2 ^ k) (fl k)) := by
  unfold splitResult
  rw [if_neg hn, if_neg hkj, if_pos hk]

theorem splitResult_at_mid {fl : ℕ → Finset ℕ} {j b n k : ℕ} (hn : n ≠ 0)
    (hkj : k ≠ j) (hks : k ≠ j - n) (hmid : j - n < k ∧ k < j) :
    splitResult fl j b n k = ({b + 2 ^ k} : Finset ℕ) := by
  unfold splitResult
  rw [if_neg hn, if_neg hkj, if_neg hks, if_pos hmid]

theorem splitResult_at_other {fl : ℕ → Finset ℕ} {j b n k : ℕ}
    (hkj : k ≠ j) (hks : k ≠ j - n) (hmid : ¬(j - n < k ∧ k < j)) :
    splitResult fl j b n k = fl k := by
  unfold splitResult
  by_cases hn : n = 0
  · rw [if_pos hn]
  · rw [if_neg hn, if_neg hkj, if_neg hks, if_neg hmid]

theorem splitLoop_spec :
    ∀ (n : ℕ) (fl : ℕ → Finset ℕ) (j b : ℕ), n ≤ j →
      setMin (fl j) = some b →
      (∀ k, j - n ≤ k → k < j → fl k = ∅) →
      splitLoop fl j n = (splitResult fl j b n, true) := by
  intro n
  induction n with
  | zero =>
    intro fl j b _ _ _
    rw [splitResult_zero]
    rfl
  | succ n ih =>
    intro fl j b hnj hmin hempty
    have hj1 : 1 ≤ j := by omega
    have hb2 : 0 < 2 ^ (j - 1) := by positivity
    set fl1 := Function.update fl (j - 1)
      (insert b (insert (b + 2 ^ (j - 1)) (fl (j - 1)))) with hfl1
    set fl2 := Function.update fl1 j ((fl1 j).erase b) with hfl2
    have hstep : splitLoop fl j (n + 1) = splitLoop fl2 (j - 1) n := by
      simp only [splitLoop, hmin]
    rw [hstep]
    have hfl_j1_empty : fl (j - 1) = ∅ := hempty (j - 1) (by omega) (by omega)
    have hfl2_other : ∀ m, m ≠ j → m ≠ j - 1 → fl2 m = fl m := by
      intro m h1 h2
      rw [hfl2, Function.update_noteq h1, hfl1, Function.update_noteq h2]
    have hfl2_j : fl2 j = (fl j).erase b := by
      rw [hfl2, Function.update_same, hfl1, Function.update_noteq (by omega)]
    have hfl2_j1 : fl2 (j - 1) = insert b (insert (b + 2 ^ (j - 1)) (fl (j - 1))) := by
      rw [hfl2, Function.update_noteq (by omega), hfl1, Function.update_same]
    have hmin2 : setMin (fl2 (j - 1)) = some b := by
      rw [hfl2_j1, hfl_j1_empty]
      exact setMin_pair (by omega) rfl
    have hempty2 : ∀ k, (j - 1) - n ≤ k → k < j - 1 → fl2 k = ∅ := by
      intro k h1 h2
      rw [hfl2_other k (by omega) (by omega)]
      exact hempty k (by omega) (by omega)
    rw [ih fl2 (j - 1) b (by omega) hmin2 hempty2]
    refine Prod.ext ?_ rfl
    show splitResult fl2 (j - 1) b n = splitResult fl j b (n + 1)
    funext k
    by_cases hkj : k = j
    · rw [hkj]
      rw [@splitResult_at_top fl j b (n + 1) (by omega),
        @splitResult_at_other fl2 (j - 1) b n j (by omega) (by omega) (by omega)]
      exact hfl2_j
    · by_cases hkj1 : k = j - 1
      · subst hkj1
        rcases Nat.eq_zero_or_pos n with rfl | hn
        · rw [splitResult_zero fl2 (j - 1) b,
            @splitResult_at_stop fl j b (0 + 1) (j - 1) (by omega) (by omega) (by omega)]
          exact hfl2_j1
        · rw [@splitResult_at_top fl2 (j - 1) b n (by omega),
            @splitResult_at_mid fl j b (n + 1) (j - 1) (by omega) (by omega)
              (by omega) (by omega)]
          rw [hfl2_j1, hfl_j1_empty, Finset.erase_insert (by simp)]
          simp
      · by_cases hkstop : k = j - (n + 1)
        · rcases Nat.eq_zero_or_pos n with rfl | hpos
          · exfalso
            omega
          · rw [@splitResult_at_stop fl2 (j - 1) b n k (by omega) (by omega) (by omega),
              @splitResult_at_stop fl j b (n + 1) k (by omega) hkstop hkj,
              hfl2_other k hkj hkj1]
        · by_cases hkmid : j - (n + 1) < k ∧ k < j
          · rw [@splitResult_at_mid fl2 (j - 1) b n k (by omega) (by omega)
                (by omega) (by omega),
              @splitResult_at_mid fl j b (n + 1) k (by omega) hkj hkstop hkmid]
          · rw [@splitResult_at_other fl2 (j - 1) b n k (by omega) (by omega)
                (by omega),
              @splitResult_at_other fl j b (n + 1) k hkj hkstop hkmid]
            exact hfl2_other k hkj hkj1

/-! ## Helper lemmas: `alloc_power_of_two` -/

theorem findNonempty_slots {ORDER cls i : ℕ} {fl : ℕ → Finset ℕ}
    (h : findNonempty fl cls (ORDER - cls) = some i) :
    cls ≤ i ∧ i < ORDER ∧ fl i ≠ ∅ ∧ ∀ m, cls ≤ m → m < i → fl m = ∅ := by
  obtain ⟨h1, h2, h3, h4⟩ := findNonempty_some fl (ORDER - cls) cls i h
  refine ⟨h1, ?_, h3, h4⟩
  by_cases hc : cls ≤ ORDER
  · omega
  · exfalso
    have h0 : ORDER - cls = 0 := by omega
    rw [h0] at h
    simp [findNonempty] at h

theorem allocPow2_none {ORDER : ℕ} {st : Buddy} {size : ℕ}
    (h : findNonempty st.free_lists (trailingZeros size)
      (ORDER - trailingZeros size) = none) :
    allocPow2 ORDER st size = (none, st) := by
  unfold allocPow2
  rw [h]

theorem allocPow2_some {ORDER : ℕ} {st : Buddy} {size i : ℕ}
    (hfind : findNonempty st.free_lists (trailingZeros size)
      (ORDER - trailingZeros size) = some i) :
    ∃ b, setMin (st.free_lists i) = some b ∧
      allocPow2 ORDER st size =
        (some b,
          { free_lists := allocFree st.free_lists (trailingZeros size) i b,
            total := st.total,
            allocated := st.allocated + size }) := by
  obtain ⟨hci, hiO, hne, hemp⟩ := findNonempty_slots hfind
  have hneS : (st.free_lists i).Nonempty := Finset.nonempty_iff_ne_empty.mpr hne
  refine ⟨(st.free_lists i).min' hneS, setMin_of_nonempty hneS, ?_⟩
  set b := (st.free_lists i).min' hneS with hb
  have hmin : setMin (st.free_lists i) = some b := setMin_of_nonempty hneS
  have hsplit := splitLoop_spec (i - trailingZeros size) st.free_lists i b
    (by omega) hmin (fun k h1 h2 => hemp k (by omega) h2)
  have hpop : setMin (splitResult st.free_lists i b (i - trailingZeros size)
      (trailingZeros size)) = some b := by
    rcases Nat.eq_or_lt_of_le hci with heq | hlt
    · have h0 : i - trailingZeros size = 0 := by omega
      rw [h0, splitResult_zero, heq]
      exact hmin
    · rw [@splitResult_at_stop st.free_lists i b (i - trailingZeros size)
        (trailingZeros size) (by omega) (by omega) (by omega)]
      rw [hemp (trailingZeros size) le_rfl hlt]
      have h1 : 0 < 2 ^ trailingZeros size := by positivity
      exact setMin_pair (by omega) rfl
  simp only [allocPow2, hfind, hsplit, hpop]
  refine Prod.ext rfl ?_
  show Buddy.mk _ _ _ = Buddy.mk _ _ _
  congr 1
  funext k
  rcases Nat.eq_or_lt_of_le hci with heq | hlt
  · -- no split iterations: `i = class`
    have h0 : i - trailingZeros size = 0 := by omega
    rw [h0, splitResult_zero]
    by_cases hk : k = trailingZeros size
    · rw [hk, Function.update_same]
      unfold allocFree
      rw [if_pos (by omega)]
      rw [← heq]
    · rw [Function.update_noteq hk]
      unfold allocFree
      rw [if_neg (by omega), if_neg (by omega)]
  · -- at least one split iteration
    have hn0 : i - trailingZeros size ≠ 0 := by omega
    by_cases hk : k = trailingZeros size
    · rw [hk, Function.update_same,
        @splitResult_at_stop st.free_lists i b (i - trailingZeros size)
          (trailingZeros size) (by omega) (by omega) (by omega),
        hemp (trailingZeros size) le_rfl hlt]
      unfold allocFree
      rw [if_neg (by omega), if_pos (by omega)]
      rw [Finset.erase_insert (by simp)]
      simp
    · rw [Function.update_noteq hk]
      by_cases hki : k = i
      · rw [hki, @splitResult_at_top st.free_lists i b (i - trailingZeros size) hn0]
        unfold allocFree
        rw [if_pos rfl]
      · by_cases hmid : trailingZeros size < k ∧ k < i
        · rw [@splitResult_at_mid st.free_lists i b (i - trailingZeros size) k
            hn0 hki (by omega) (by omega)]
          unfold allocFree
          rw [if_neg hki, if_pos (by omega)]
        · rw [@splitResult_at_other st.free_lists i b (i - trailingZeros size) k
            hki (by omega) (by omega)]
          unfold allocFree
          rw [if_neg hki, if_neg (by omega)]

/-! ## Helper lemmas: the coalescing (no-buddy-pair) invariant -/

theorem xor_two_pow_ne (a k : ℕ) : a ^^^ 2 ^ k ≠ a := by
  intro h
  have e1 : a ^^^ (a ^^^ 2 ^ k) = a ^^^ a := congrArg (a ^^^ ·) h
  rw [← Nat.xor_assoc, Nat.xor_self, Nat.zero_xor] at e1
  exact absurd e1 (by positivity : (0:ℕ) < 2 ^ k).ne'

theorem pairFreeF_update_subset {ORDER : ℕ} {fl : ℕ → Finset ℕ} {k : ℕ}
    {s : Finset ℕ} (h : PairFreeF ORDER fl) (hs : s ⊆ fl k) :
    PairFreeF ORDER (Function.update fl k s) := by
  intro m hm a ha hmem
  by_cases hmk : m = k
  · rw [hmk, Function.update_same] at ha hmem
    rw [hmk] at hm
    exact h k hm a (hs ha) (hs hmem)
  · rw [Function.update_noteq hmk] at ha hmem
    exact h m hm a ha hmem

theorem pairFreeF_update_insert {ORDER : ℕ} {fl : ℕ → Finset ℕ} {k p : ℕ}
    (h : PairFreeF ORDER fl) (hp : p ^^^ 2 ^ k ∉ fl k) :
    PairFreeF ORDER (Function.update fl k (insert p (fl k))) := by
  intro m hm a ha hmem
  by_cases hmk : m = k
  · rw [hmk, Function.update_same, Finset.mem_insert] at ha hmem
    rw [hmk] at hm
    rcases ha with rfl | ha
    · rcases hmem with he | hmem2
      · exact xor_two_pow_ne a k he
      · exact hp hmem2
    · rcases hmem with he | hmem2
      · refine hp ?_
        rw [← he, Nat.xor_assoc, Nat.xor_self, Nat.xor_zero]
        exact ha
      · exact h k hm a ha hmem2
  · rw [Function.update_noteq hmk] at ha hmem
    exact h m hm a ha hmem

theorem pairFreeF_allocFree {ORDER : ℕ} {fl : ℕ → Finset ℕ} {cls i b : ℕ}
    (h : PairFreeF ORDER fl) : PairFreeF ORDER (allocFree fl cls i b) := by
  intro m hm a ha hmem
  unfold allocFree at ha hmem
  by_cases hmi : m = i
  · rw [if_pos hmi] at ha hmem
    rw [hmi] at hm hmem
    exact h i hm a (Finset.mem_of_mem_erase ha) (Finset.mem_of_mem_erase hmem)
  · rw [if_neg hmi] at ha hmem
    by_cases hmid : cls ≤ m ∧ m < i
    · rw [if_pos hmid] at ha hmem
      rw [Finset.mem_singleton] at ha hmem
      exact xor_two_pow_ne a m (by rw [hmem, ← ha])
    · rw [if_neg hmid] at ha hmem
      exact h m hm a ha hmem

/-! ## Helper lemmas: the byte-count effect of a successful allocation -/

theorem sumFreeF_allocFree {ORDER : ℕ} {fl : ℕ → Finset ℕ} {cls i b : ℕ}
    (hci : cls ≤ i) (hiO : i < ORDER) (hb : b ∈ fl i)
    (hemp : ∀ k, cls ≤ k → k < i → fl k = ∅) :
    sumFreeF ORDER (allocFree fl cls i b) + 2 ^ cls = sumFreeF ORDER fl := by
  have hsub : Finset.Ico cls (i + 1) ⊆ Finset.range ORDER := by
    intro x hx
    simp only [Finset.mem_Ico] at hx
    exact Finset.mem_range.mpr (by omega)
  have e1 : sumFreeF ORDER (allocFree fl cls i b) =
      (∑ x ∈ Finset.range ORDER \ Finset.Ico cls (i + 1), 2 ^ x * (fl x).card) +
        ((∑ x ∈ Finset.Ico cls i, 2 ^ x) + 2 ^ i * ((fl i).erase b).card) := by
    unfold sumFreeF
    rw [← Finset.sum_sdiff hsub]
    congr 1
    · refine Finset.sum_congr rfl fun x hx => ?_
      rcases Finset.mem_sdiff.mp hx with ⟨_, hx2⟩
      simp only [Finset.mem_Ico, not_and_or, not_le] at hx2
      unfold allocFree
      rw [if_neg (by omega), if_neg (by omega)]
    · rw [Finset.sum_Ico_succ_top (by omega)]
      congr 1
      · refine Finset.sum_congr rfl fun x hx => ?_
        simp only [Finset.mem_Ico] at hx
        unfold allocFree
        rw [if_neg (by omega), if_pos (by omega)]
        simp
      · unfold allocFree
        rw [if_pos rfl]
  have e2 : sumFreeF ORDER fl =
      (∑ x ∈ Finset.range ORDER \ Finset.Ico cls (i + 1), 2 ^ x * (fl x).card) +
        ((0 : ℕ) + 2 ^ i * (fl i).card) := by
    unfold sumFreeF
    rw [← Finset.sum_sdiff hsub]
    congr 1
    rw [Finset.sum_Ico_succ_top (by omega)]
    congr 1
    refine Finset.sum_eq_zero fun x hx => ?_
    simp only [Finset.mem_Ico] at hx
    rw [hemp x (by omega) (by omega)]
    simp
  have e3 : 2 ^ i * (fl i).card = 2 ^ i * ((fl i).erase b).card + 2 ^ i := by
    rw [← Finset.card_erase_add_one hb]
    ring
  have e4 : (∑ x ∈ Finset.Ico cls i, 2 ^ x) + 2 ^ cls = 2 ^ i :=
    sum_two_pow_Ico cls i hci
  omega

/-! ## Helper lemmas: wrapped effects of `alloc_power_of_two` -/

theorem allocPow2_pairFree {ORDER : ℕ} {st : Buddy} (size : ℕ)
    (h : BuddyPairFree ORDER st) :
    BuddyPairFree ORDER (allocPow2 ORDER st size).2 := by
  rcases hfind : findNonempty st.free_lists (trailingZeros size)
      (ORDER - trailingZeros size) with _ | i
  · rw [allocPow2_none hfind]
    exact h
  · obtain ⟨b, hmin, heq⟩ := allocPow2_some hfind
    rw [heq]
    exact pairFreeF_allocFree h

theorem allocPow2_effects {ORDER : ℕ} {st : Buddy} {size : ℕ}
    (hpow : 2 ^ trailingZeros size = size) :
    (allocPow2 ORDER st size).2.total = st.total ∧
    (allocPow2 ORDER st size).2.allocated =
      st.allocated + (if (allocPow2 ORDER st size).1.isSome then size else 0) ∧
    sumFreeF ORDER (allocPow2 ORDER st size).2.free_lists +
        (if (allocPow2 ORDER st size).1.isSome then size else 0) =
      sumFreeF ORDER st.free_lists := by
  rcases hfind : findNonempty st.free_lists (trailingZeros size)
      (ORDER - trailingZeros size) with _ | i
  · rw [allocPow2_none hfind]
    simp
  · obtain ⟨b, hmin, heq⟩ := allocPow2_some hfind
    obtain ⟨hci, hiO, hne, hemp⟩ := findNonempty_slots hfind
    rw [heq]
    refine ⟨rfl, rfl, ?_⟩
    have hsum := sumFreeF_allocFree hci hiO (setMin_mem hmin) hemp
    rw [hpow] at hsum
    exact hsum

/-! ## Helper lemmas: the coalescing loop of deallocation -/

theorem mergeLoopAux_pairFree (ORDER : ℕ) :
    ∀ fuel (fl : ℕ → Finset ℕ) p k, PairFreeF ORDER fl →
      PairFreeF ORDER (mergeLoopAux ORDER fl p k fuel) := by
  intro fuel
  induction fuel with
  | zero => intro fl p k h; exact h
  | succ fuel ih =>
    intro fl p k h
    simp only [mergeLoopAux]
    split
    · by_cases hbud : p ^^^ 2 ^ k ∈ fl k
      · rw [if_pos hbud]
        exact ih _ _ _ (pairFreeF_update_subset h (Finset.erase_subset _ _))
      · rw [if_neg hbud]
        exact pairFreeF_update_insert h hbud
    · exact h

theorem mergeLoopAux_sum (ORDER : ℕ) :
    ∀ fuel (fl : ℕ → Finset ℕ) p k,
      sumFreeF ORDER (mergeLoopAux ORDER fl p k fuel) ≤
        sumFreeF ORDER fl + 2 ^ k := by
  intro fuel
  induction fuel with
  | zero => intro fl p k; exact Nat.le_add_right _ _
  | succ fuel ih =>
    intro fl p k
    simp only [mergeLoopAux]
    split
    · next hkO =>
      by_cases hbud : p ^^^ 2 ^ k ∈ fl k
      · rw [if_pos hbud]
        have h1 := ih (Function.update fl k ((fl k).erase (p ^^^ 2 ^ k)))
          (min p (p ^^^ 2 ^ k)) (k + 1)
        have h2 := sumFreeF_update_lt fl hkO ((fl k).erase (p ^^^ 2 ^ k))
        have h3 : ((fl k).erase (p ^^^ 2 ^ k)).card + 1 = (fl k).card :=
          Finset.card_erase_add_one hbud
        have h4 : 2 ^ k * (fl k).card =
            2 ^ k * ((fl k).erase (p ^^^ 2 ^ k)).card + 2 ^ k := by
          rw [← h3]
          ring
        have h5 : (2:ℕ) ^ (k + 1) = 2 ^ k + 2 ^ k := by ring
        omega
      · rw [if_neg hbud]
        have h2 := sumFreeF_update_lt fl hkO (insert p (fl k))
        have h4 : 2 ^ k * (insert p (fl k)).card ≤
            2 ^ k * ((fl k).card + 1) :=
          Nat.mul_le_mul_left _ (Finset.card_insert_le _ _)
        have h5 : 2 ^ k * ((fl k).card + 1) = 2 ^ k * (fl k).card + 2 ^ k := by
          ring
        omega
    · exact Nat.le_add_right _ _

theorem mergeLoop_pairFree {ORDER : ℕ} {fl : ℕ → Finset ℕ} {p k : ℕ}
    (h : PairFreeF ORDER fl) : PairFreeF ORDER (mergeLoop ORDER fl p k) :=
  mergeLoopAux_pairFree ORDER _ fl p k h

theorem mergeLoop_sum {ORDER : ℕ} {fl : ℕ → Finset ℕ} {p k : ℕ} :
    sumFreeF ORDER (mergeLoop ORDER fl p k) ≤ sumFreeF ORDER fl + 2 ^ k :=
  mergeLoopAux_sum ORDER _ fl p k

/-! ## Helper lemmas: `add_range` -/

theorem addRangeAux_inv (ORDER : ℕ) (hO : ORDER ≤ 32) :
    ∀ fuel (st : Buddy) (s e : ℕ),
      (addRangeAux ORDER fuel st s e).allocated = st.allocated ∧
      ∀ C, sumFreeF ORDER st.free_lists + C ≤ st.total →
        sumFreeF ORDER (addRangeAux ORDER fuel st s e).free_lists + C ≤
          (addRangeAux ORDER fuel st s e).total := by
  intro fuel
  induction fuel with
  | zero => intro st s e; exact ⟨rfl, fun _ h => h⟩
  | succ fuel ih =>
    intro st s e
    simp only [addRangeAux]
    split
    · exact ih st s (min e (2 ^ ORDER))
    · next hclip =>
      split
      · next hse =>
        set S := min (if 0 < s then s &&& (2 ^ 32 - s) else 2 ^ 32 - 1)
          (min (2 ^ ilog2 (e - s)) (2 ^ (ORDER - 1))) with hS
        obtain ⟨iha, ihs⟩ := ih
          { st with
            total := st.total + S,
            free_lists := Function.update st.free_lists (ilog2 S)
              (insert s (st.free_lists (ilog2 S))) }
          (s + S) e
        refine ⟨iha, fun C hC => ?_⟩
        refine ihs C ?_
        show sumFreeF ORDER (Function.update st.free_lists (ilog2 S)
          (insert s (st.free_lists (ilog2 S)))) + C ≤ st.total + S
        have hS1 : 1 ≤ S := by
          have hL : 1 ≤ min (2 ^ ilog2 (e - s)) (2 ^ (ORDER - 1)) :=
            le_min Nat.one_le_two_pow Nat.one_le_two_pow
          by_cases hs0 : 0 < s
          · have hs32 : s < 2 ^ 32 := by
              have h2 : (2:ℕ) ^ ORDER ≤ 2 ^ 32 :=
                Nat.pow_le_pow_right (by omega) hO
              omega
            have hpos := land_sub_pos 32 s hs0 hs32
            rw [hS, if_pos hs0]
            exact le_min hpos hL
          · rw [hS, if_neg hs0]
            refine le_min (by norm_num) hL
        by_cases hslot : ilog2 S < ORDER
        · have h2 := sumFreeF_update_lt st.free_lists hslot
            (insert s (st.free_lists (ilog2 S)))
          have h4 : 2 ^ ilog2 S ≤ S := ilog2_le hS1
          have h5 : 2 ^ ilog2 S * (insert s (st.free_lists (ilog2 S))).card ≤
              2 ^ ilog2 S * ((st.free_lists (ilog2 S)).card + 1) :=
            Nat.mul_le_mul_left _ (Finset.card_insert_le _ _)
          have h6 : 2 ^ ilog2 S * ((st.free_lists (ilog2 S)).card + 1) =
              2 ^ ilog2 S * (st.free_lists (ilog2 S)).card + 2 ^ ilog2 S := by
            ring
          omega
        · have h2 := @sumFreeF_update_ge ORDER (ilog2 S) st.free_lists (by omega)
            (insert s (st.free_lists (ilog2 S)))
          omega
      · exact ⟨rfl, fun _ h => h⟩

/-! ## Helper lemmas: the ghost multiset of outstanding allocations -/

theorem ghost_sum (r : Option ℕ) (size : ℕ) (g : Multiset (ℕ × ℕ)) :
    ((g + ghost r size).map Prod.snd).sum =
      (g.map Prod.snd).sum + (if r.isSome then size else 0) := by
  cases r <;> simp [ghost]

theorem mem_snd_le_sum {g : Multiset (ℕ × ℕ)} {x : ℕ × ℕ} (hx : x ∈ g) :
    x.2 ≤ (g.map Prod.snd).sum := by
  rw [← Multiset.cons_erase hx]
  simp

theorem erase_snd_sum {g : Multiset (ℕ × ℕ)} {x : ℕ × ℕ} (hx : x ∈ g) :
    ((g.erase x).map Prod.snd).sum + x.2 = (g.map Prod.snd).sum := by
  conv_rhs => rw [← Multiset.cons_erase hx]
  simp [add_comm]

/-! ## The reachable-state invariant -/

theorem reach_inv {ORDER : ℕ} (hO : ORDER ≤ 32) {st : Buddy}
    {g : Multiset (ℕ × ℕ)} (h : Reachable ORDER st g) :
    st.allocated = (g.map Prod.snd).sum ∧
    sumFreeF ORDER st.free_lists + st.allocated ≤ st.total := by
  induction h with
  | empty =>
    constructor <;> simp [Buddy.empty, sumFreeF]
  | @add_range st g s e hr ih =>
    obtain ⟨ih1, ih2⟩ := ih
    obtain ⟨ha, hs⟩ := addRangeAux_inv ORDER hO (e - s + 2) st s e
    constructor
    · show (addRangeAux ORDER (e - s + 2) st s e).allocated = _
      rw [ha]
      exact ih1
    · show sumFreeF ORDER (addRangeAux ORDER (e - s + 2) st s e).free_lists +
        (addRangeAux ORDER (e - s + 2) st s e).allocated ≤
        (addRangeAux ORDER (e - s + 2) st s e).total
      rw [ha]
      exact hs st.allocated ih2
  | @alloc st g count hr ih =>
    obtain ⟨ih1, ih2⟩ := ih
    obtain ⟨ht, hal, hsum⟩ :=
      @allocPow2_effects ORDER st (nextPow2 count) (pow_trailingZeros_nextPow2 count)
    simp only [Buddy.alloc]
    rw [ghost_sum]
    constructor
    · rw [hal, ih1]
    · omega
  | @alloc_aligned st g size m hr ih =>
    obtain ⟨ih1, ih2⟩ := ih
    obtain ⟨ht, hal, hsum⟩ :=
      @allocPow2_effects ORDER st (max (nextPow2 size) (2 ^ m))
        (pow_trailingZeros_alignedSize size m)
    simp only [Buddy.alloc_aligned]
    rw [ghost_sum]
    constructor
    · rw [hal, ih1]
    · omega
  | @dealloc st g frame count hr hm ih =>
    obtain ⟨ih1, ih2⟩ := ih
    have hle : nextPow2 count ≤ (g.map Prod.snd).sum := mem_snd_le_sum hm
    have her := erase_snd_sum hm
    have hms : sumFreeF ORDER
        (mergeLoop ORDER st.free_lists frame (trailingZeros (nextPow2 count))) ≤
        sumFreeF ORDER st.free_lists + 2 ^ trailingZeros (nextPow2 count) :=
      mergeLoop_sum
    rw [pow_trailingZeros_nextPow2] at hms
    simp only [Buddy.dealloc, deallocPow2]
    constructor
    · show st.allocated - nextPow2 count = _
      omega
    · show sumFreeF ORDER
        (mergeLoop ORDER st.free_lists frame (trailingZeros (nextPow2 count))) +
        (st.allocated - nextPow2 count) ≤ st.total
      omega
  | @dealloc_aligned st g frame size m hr hm ih =>
    obtain ⟨ih1, ih2⟩ := ih
    have hle : max (nextPow2 size) (2 ^ m) ≤ (g.map Prod.snd).sum :=
      mem_snd_le_sum hm
    have her := erase_snd_sum hm
    have hms : sumFreeF ORDER (mergeLoop ORDER st.free_lists frame
        (trailingZeros (max (nextPow2 size) (2 ^ m)))) ≤
        sumFreeF ORDER st.free_lists +
          2 ^ trailingZeros (max (nextPow2 size) (2 ^ m)) :=
      mergeLoop_sum
    rw [pow_trailingZeros_alignedSize] at hms
    simp only [Buddy.dealloc_aligned, deallocPow2]
    constructor
    · show st.allocated - max (nextPow2 size) (2 ^ m) = _
      omega
    · show sumFreeF ORDER (mergeLoop ORDER st.free_lists frame
        (trailingZeros (max (nextPow2 size) (2 ^ m)))) +
        (st.allocated - max (nextPow2 size) (2 ^ m)) ≤ st.total
      omega

/-! ## Claim theorems -/

/-- C1, counterexample: the claim fails as stated — a single `add_range`
from the empty allocator already places a buddy pair in one slot.  With
`ORDER = 4`, `add_range(0..16)` leaves slot 3 holding both 0 and 8, and
`0 XOR 8 = 2^3`, so the reachable state violates the no-buddy-pair
invariant. -/
theorem C1_add_range_pair_counterexample :
    Reachable 4 c1State 0 ∧ ¬ BuddyPairFree 4 c1State :=
  ⟨Reachable.add_range 0 16 Reachable.empty, by decide⟩

/-- C1, amended: `alloc`, `alloc_aligned`, `dealloc` and `dealloc_aligned`
each preserve the invariant that no free-list slot `k` simultaneously
contains two distinct addresses `a`, `b` with `a XOR b = 2^k`; `add_range`
does not preserve it. -/
theorem C1_alloc_dealloc_preserve_pair_free (ORDER : ℕ) (st : Buddy)
    (count frame size align : ℕ) (h : BuddyPairFree ORDER st) :
    BuddyPairFree ORDER (Buddy.alloc ORDER st count).2 ∧
    BuddyPairFree ORDER (Buddy.alloc_aligned ORDER st size align).2 ∧
    BuddyPairFree ORDER (Buddy.dealloc ORDER st frame count) ∧
    BuddyPairFree ORDER (Buddy.dealloc_aligned ORDER st frame size align) := by
  refine ⟨allocPow2_pairFree (nextPow2 count) h,
    allocPow2_pairFree (max (nextPow2 size) align) h, ?_, ?_⟩
  · exact mergeLoop_pairFree h
  · exact mergeLoop_pairFree h

/-- Witness for C1: the preservation theorem applied to the empty
allocator. -/
theorem C1_alloc_dealloc_preserve_pair_free_witness :
    BuddyPairFree 2 (Buddy.alloc 2 Buddy.empty 1).2 ∧
    BuddyPairFree 2 (Buddy.alloc_aligned 2 Buddy.empty 1 1).2 ∧
    BuddyPairFree 2 (Buddy.dealloc 2 Buddy.empty 0 1) ∧
    BuddyPairFree 2 (Buddy.dealloc_aligned 2 Buddy.empty 0 1 1) :=
  C1_alloc_dealloc_preserve_pair_free 2 Buddy.empty 1 0 1 1 (by decide)

/-- C2: the `multiboot` crate consults the wrong guard for `memory_map()`.
`is_nth_bit_set(6)` masks with `6 << 1 = 0b1100` (bits 2 and 3) instead of
`1 << 6`: with only bit 6 set (flags = 64) and a non-null pointer the crate
guard is false, with only bit 3 set (flags = 8) it is true; the kernel copy
in `src/src/boot/multiboot.rs` tests bit 6 as the claim states. -/
theorem C2_mmap_guard_bit :
    memory_map_is_present 64 4 = false ∧
    memory_map_is_present 8 4 = true ∧
    memory_map_is_present_boot 64 4 = true ∧
    memory_map_is_present_boot 8 4 = false := by decide

/-- C3: with `ORDER = 16`, after `add_range(0..1025)` the allocations
512, 512, 1, 1 return `Some 0`, `Some 512`, `Some 1024`, `None` in that
order (lowest-address-first allocation). -/
theorem C3_unaligned_range_scenario :
    c3Alloc1.1 = some 0 ∧ c3Alloc2.1 = some 512 ∧ c3Alloc3.1 = some 1024 ∧
    c3Alloc4.1 = none := by decide

/-- C4, counterexample: the claim fails as stated — `total` is not the
number of bytes currently free.  With `ORDER = 5`, after `add_range(0..32)`
and `alloc(16)` the reachable state has slot-sum 16 but `total = 32`
(`total` is never decreased by an allocation). -/
theorem C4_total_ne_sum_counterexample :
    (∃ g, Reachable 5 c4State g) ∧
    sumFreeF 5 c4State.free_lists ≠ c4State.total :=
  ⟨⟨_, Reachable.alloc 16 (Reachable.add_range 0 32 Reachable.empty)⟩, by decide⟩

/-- C4, amended: in every reachable state (`ORDER ≤ 32`, the usize width
bound) the sum of `2^k` over all addresses stored in slot `k` is at most
`total`; `total` counts free plus allocated bytes, so equality fails as
soon as anything is allocated. -/
theorem C4_sum_le_total (ORDER : ℕ) (st : Buddy) (g : Multiset (ℕ × ℕ))
    (hO : ORDER ≤ 32) (h : Reachable ORDER st g) :
    sumFreeF ORDER st.free_lists ≤ st.total := by
  have h2 := (reach_inv hO h).2
  omega

/-- Witness for C4: the amended bound at the empty allocator. -/
theorem C4_sum_le_total_witness :
    sumFreeF 5 Buddy.empty.free_lists ≤ Buddy.empty.total :=
  C4_sum_le_total 5 Buddy.empty 0 (by omega) Reachable.empty

/-- C5, counterexample: the claim fails as stated.  With `ORDER = 1`, after
`add_range(0..2)`, `alloc(1)` (returning 0) and the matching `dealloc(0,1)`,
the coalescing loop removes the buddy from the top slot and then exits
without re-inserting the merged block, so the reachable state has
slot-sum 0 and `allocated = 0` but `total = 2`. -/
theorem C5_top_merge_counterexample :
    (∃ g, Reachable 1 c5State g) ∧
    sumFreeF 1 c5State.free_lists + c5State.allocated ≠ c5State.total :=
  ⟨⟨_, Reachable.dealloc 0 1
      (Reachable.alloc 1 (Reachable.add_range 0 2 Reachable.empty))
      (by decide)⟩,
    by decide⟩

/-- C5, amended: in every reachable state (`ORDER ≤ 32`), the sum of `2^k`
over all addresses stored in slot `k` plus `allocated` is at most `total`;
equality can fail when a deallocation coalesces past the top size class or
when `add_range` re-inserts an address that is already free. -/
theorem C5_sum_allocated_le_total (ORDER : ℕ) (st : Buddy)
    (g : Multiset (ℕ × ℕ)) (hO : ORDER ≤ 32) (h : Reachable ORDER st g) :
    sumFreeF ORDER st.free_lists + st.allocated ≤ st.total :=
  (reach_inv hO h).2

/-- Witness for C5: the amended bound at the empty allocator. -/
theorem C5_sum_allocated_le_total_witness :
    sumFreeF 2 Buddy.empty.free_lists + Buddy.empty.allocated ≤
      Buddy.empty.total :=
  C5_sum_allocated_le_total 2 Buddy.empty 0 (by omega) Reachable.empty

/-- C6: `crop_start` does not behave as claimed when the region lies past
`min_addr`.  For the region `[10, 15)` and `min = 2 < base`, the code
returns `Some [2, 7)` — it rebases the region to `min_addr` (keeping the
original length), instead of leaving the region `[10, 15)` unchanged with
its end address preserved. -/
theorem C6_crop_start_rebases :
    MemoryRegion.crop_start ⟨10, 5, MemoryRegionType.Available⟩ 2 =
      some ⟨2, 5, MemoryRegionType.Available⟩ ∧
    MemoryRegion.crop_start ⟨10, 5, MemoryRegionType.Available⟩ 2 ≠
      some ⟨10, 5, MemoryRegionType.Available⟩ := by decide

/-- C7: the crop composition law fails on the code.  For `r = [10, 20)`,
`crop(0, 100)` followed by `crop(5, 100)` yields `[5, 10)` while
`crop(max(0,5), min(100,100))` yields `[5, 15)`: both sides are `Some` but
differ, because `crop_start` rebases regions below their start (the C6
slip). -/
theorem C7_crop_composition_fails :
    (MemoryRegion.crop ⟨10, 10, MemoryRegionType.Available⟩ 0 100).bind
        (fun r => r.crop 5 100) =
      some ⟨5, 5, MemoryRegionType.Available⟩ ∧
    MemoryRegion.crop ⟨10, 10, MemoryRegionType.Available⟩ (max 0 5)
        (min 100 100) =
      some ⟨5, 10, MemoryRegionType.Available⟩ ∧
    some (⟨5, 5, MemoryRegionType.Available⟩ : MemoryRegion) ≠
      some ⟨5, 10, MemoryRegionType.Available⟩ := by decide

/-- C8: allocation on an exhausted allocator returns an explicit `None`
and leaves the state unchanged: whenever every slot from the requested
class up to `ORDER` is empty, `alloc`, `alloc_aligned` and
`alloc_power_of_two` all return `(None, st)`. -/
theorem C8_exhaustion_returns_none (ORDER : ℕ) (st : Buddy)
    (count size align psize : ℕ) :
    ((∀ i, trailingZeros (nextPow2 count) ≤ i → i < ORDER →
        st.free_lists i = ∅) →
      Buddy.alloc ORDER st count = (none, st)) ∧
    ((∀ i, trailingZeros (max (nextPow2 size) align) ≤ i → i < ORDER →
        st.free_lists i = ∅) →
      Buddy.alloc_aligned ORDER st size align = (none, st)) ∧
    ((∀ i, trailingZeros psize ≤ i → i < ORDER → st.free_lists i = ∅) →
      allocPow2 ORDER st psize = (none, st)) := by
  refine ⟨fun h => ?_, fun h => ?_, fun h => ?_⟩
  · show allocPow2 ORDER st (nextPow2 count) = (none, st)
    exact allocPow2_none
      (findNonempty_none_of _ _ _ fun m h1 h2 => h m h1 (by omega))
  · show allocPow2 ORDER st (max (nextPow2 size) align) = (none, st)
    exact allocPow2_none
      (findNonempty_none_of _ _ _ fun m h1 h2 => h m h1 (by omega))
  · exact allocPow2_none
      (findNonempty_none_of _ _ _ fun m h1 h2 => h m h1 (by omega))

/-- Witness for C8: `alloc(1)` on the empty two-slot allocator. -/
theorem C8_exhaustion_returns_none_witness :
    Buddy.alloc 2 Buddy.empty 1 = (none, Buddy.empty) :=
  (C8_exhaustion_returns_none 2 Buddy.empty 1 1 1 1).1 fun _ _ _ => rfl

/-- C9: for any sequence of `request_*` calls, the built multiboot header
has `magic = 0x1BADB002` and `magic + flags + checksum ≡ 0 (mod 2^32)`. -/
theorem C9_header_checksum (ops : List BuilderOp) :
    ((applyOps HeaderBuilder.new ops).build).magic = 0x1BADB002 ∧
    (((applyOps HeaderBuilder.new ops).build).magic +
        ((applyOps HeaderBuilder.new ops).build).flags +
        ((applyOps HeaderBuilder.new ops).build).checksum) % 2 ^ 32 = 0 := by
  constructor
  · rfl
  · show (0x1badb002 + (applyOps HeaderBuilder.new ops).flags +
      ((2 ^ 32 - 1 - ((0x1badb002 + (applyOps HeaderBuilder.new ops).flags) %
        2 ^ 32)) + 1)) % 2 ^ 32 = 0
    omega

/-- Witness for C9: the checksum law at a concrete option selection. -/
theorem C9_header_checksum_witness :
    ((applyOps HeaderBuilder.new
        [BuilderOp.aligned_modules, BuilderOp.memory_map]).build).magic =
      0x1BADB002 ∧
    (((applyOps HeaderBuilder.new
        [BuilderOp.aligned_modules, BuilderOp.memory_map]).build).magic +
        ((applyOps HeaderBuilder.new
          [BuilderOp.aligned_modules, BuilderOp.memory_map]).build).flags +
        ((applyOps HeaderBuilder.new
          [BuilderOp.aligned_modules, BuilderOp.memory_map]).build).checksum) %
      2 ^ 32 = 0 :=
  C9_header_checksum [BuilderOp.aligned_modules, BuilderOp.memory_map]

/-- C10, counterexample: `alloc(0)` does not return the overall lowest
free address.  In the reachable state with slot 0 = {100} and
slot 4 = {0}, `alloc(0)` pops slot 0 first and returns 100 although
address 0 is free. -/
theorem C10_not_lowest_counterexample :
    (∃ g, Reachable 7 c10State g) ∧
    (Buddy.alloc 7 c10State 0).1 = some 100 ∧
    0 ∈ c10State.free_lists 4 ∧ (0:ℕ) < 100 :=
  ⟨⟨0, Reachable.add_range 100 101 (Reachable.add_range 0 16 Reachable.empty)⟩,
    by decide, by decide, by decide⟩

/-- C10, amended: `alloc(0)` rounds the count up to a block size of 1
(class 0); when some slot is non-empty it returns the minimum address of
the first (smallest) non-empty size class — not necessarily the overall
lowest free address — and increments `allocated` by 1; when all slots are
empty it returns `None` and leaves the state unchanged. -/
theorem C10_alloc_zero (ORDER : ℕ) (st : Buddy) :
    (∀ i, findNonempty st.free_lists 0 ORDER = some i →
      ∃ b, setMin (st.free_lists i) = some b ∧
        (Buddy.alloc ORDER st 0).1 = some b ∧
        (Buddy.alloc ORDER st 0).2.allocated = st.allocated + 1) ∧
    ((∀ i, i < ORDER → st.free_lists i = ∅) →
      Buddy.alloc ORDER st 0 = (none, st)) := by
  constructor
  · intro i hfind
    have hfind2 : findNonempty st.free_lists (trailingZeros (nextPow2 0))
        (ORDER - trailingZeros (nextPow2 0)) = some i := by
      show findNonempty st.free_lists 0 (ORDER - 0) = some i
      simpa using hfind
    obtain ⟨b, hmin, heq⟩ := allocPow2_some hfind2
    refine ⟨b, hmin, ?_, ?_⟩
    · show (allocPow2 ORDER st (nextPow2 0)).1 = some b
      rw [heq]
    · show (allocPow2 ORDER st (nextPow2 0)).2.allocated = st.allocated + 1
      rw [heq]
      rfl
  · intro hall
    show allocPow2 ORDER st (nextPow2 0) = (none, st)
    exact allocPow2_none
      (findNonempty_none_of _ _ _ fun m _ h2 => hall m (by omega))

/-- Witness for C10: `alloc(0)` on a state with slot 0 = {0} returns
`Some 0` and bumps `allocated`. -/
theorem C10_alloc_zero_witness :
    ∃ b, setMin (c10SmallState.free_lists 0) = some b ∧
      (Buddy.alloc 2 c10SmallState 0).1 = some b ∧
      (Buddy.alloc 2 c10SmallState 0).2.allocated =
        c10SmallState.allocated + 1 :=
  (C10_alloc_zero 2 c10SmallState).1 0 (by decide)

end KernelSpec
